import Mathlib

/-
Verification of the Employee-curator pipeline
(scripts/clean_and_write.py, Stage A, and scripts/write_sample.py, Stage B).

The embedding works on records after the per-field coercion step of
Stage A: `hire_date` and `birth_date` are already `Option Date`
(pd.to_datetime(..., errors="coerce").dt.date) and `salary` is already
`Option Rat` (pd.to_numeric after stripping "$" and ","), since the
claims under verification are about the transforms downstream of those
library calls, and the coercion step never touches `employee_id`, the
dedup key.  Missing values (pandas NaN) are `none`; every raw text
field is `Option String`, as produced by pd.read_csv(..., dtype=str).
File input and output are out of scope, per the spec.
-/

namespace EmployeeCurator

/-- A calendar date, as produced by pd.to_datetime(...).dt.date.
Python compares dates lexicographically by (year, month, day). -/
structure Date where
  year : Nat
  month : Nat
  day : Nat
deriving DecidableEq, Repr

/-- Python date comparison: lexicographic on (year, month, day).
Used by the filter `df["hire_date"] <= today`. -/
def Date.leb (a b : Date) : Bool :=
  if a.year ≠ b.year then decide (a.year < b.year)
  else if a.month ≠ b.month then decide (a.month < b.month)
  else decide (a.day ≤ b.day)

/-- Days since 1970-01-01 in the proleptic Gregorian calendar (for
years ≥ 1, the range pandas timestamps inhabit); this is the day
count pandas uses when subtracting two dates. -/
def Date.toDays (d : Date) : Int :=
  let y : Nat := if d.month ≤ 2 then d.year - 1 else d.year
  let era : Nat := y / 400
  let yoe : Nat := y - era * 400
  let mp : Nat := (d.month + 9) % 12
  let doy : Nat := (153 * mp + 2) / 5 + d.day - 1
  let doe : Nat := yoe * 365 + yoe / 4 - yoe / 100 + doy
  (era * 146097 + doe : Int) - 719468

/-- Python tuple comparison `(a1, a2) < (b1, b2)`: lexicographic.
Used by calc_age on (month, day) pairs. -/
def pairLt (a b : Nat × Nat) : Bool :=
  decide (a.1 < b.1) || (decide (a.1 = b.1) && decide (a.2 < b.2))

/-- One raw row after pd.read_csv(..., dtype=str) and the numeric/date
coercion steps; `none` is pandas NaN. -/
structure Record where
  employee_id : Option String
  first_name : Option String
  last_name : Option String
  email : Option String
  hire_date : Option Date
  birth_date : Option Date
  salary : Option Rat
  job_title : Option String
  department : Option String
  manager_id : Option String
  address : Option String
  city : Option String
  state : Option String
  zip_code : Option String
  status : Option String
deriving DecidableEq, Repr

/-- A row after the fill / name / full_name / email normalisation
steps of Stage A (everything before the future-hire-date filter). -/
structure Norm where
  employee_id : Option String
  first_name : Option String
  last_name : Option String
  full_name : String
  email : String
  email_domain : String
  hire_date : Option Date
  birth_date : Option Date
  salary : Option Rat
  job_title : Option String
  department : Option String
  manager_id : Option String
  address : String
  city : String
  state : String
  zip_code : String
  status : String
deriving DecidableEq, Repr

/-- A row after the derived-field steps (age, tenure_years,
salary_band) of Stage A. -/
structure Cleaned extends Norm where
  age : Option Int
  tenure_years : Option Rat
  salary_band : String
deriving DecidableEq, Repr

/-- Helper for dedupBy: keeps an element iff its key was not seen yet,
accumulating the keys already seen, exactly the semantics of
df.drop_duplicates(subset=["employee_id"], keep="first"). -/
def dedupGo {α κ : Type} (key : α → κ) [DecidableEq κ] (seen : List κ) : List α → List α
  | [] => []
  | x :: xs =>
    if key x ∈ seen then dedupGo key seen xs
    else x :: dedupGo key (key x :: seen) xs

/-- df.drop_duplicates(subset=["employee_id"], keep="first"): keep the
first row for each key, in order.  pandas treats NaN keys as equal to
each other, which the `Option` key type reproduces. -/
def dedupBy {α κ : Type} (key : α → κ) [DecidableEq κ] (l : List α) : List α :=
  dedupGo key [] l

/-- Python str(x) applied to a possibly-missing string cell, as done by
.astype(str): a missing value stringifies to the literal "nan". -/
def pyStr : Option String → String
  | none => "nan"
  | some s => s

/-- Python str.strip(): drop leading and trailing whitespace. -/
def pyStrip (s : String) : String :=
  ⟨((s.data.dropWhile Char.isWhitespace).reverse.dropWhile Char.isWhitespace).reverse⟩

/-- Python str.lower(): lowercase every character. -/
def pyLower (s : String) : String :=
  ⟨s.data.map Char.toLower⟩

/-- Helper for pyTitle: the Boolean records whether the previous
character was alphabetic. -/
def titleChars : Bool → List Char → List Char
  | _, [] => []
  | prev, c :: cs =>
    (if c.isAlpha then (if prev then c.toLower else c.toUpper) else c)
      :: titleChars c.isAlpha cs

/-- Python str.title(), as used by .str.title(): the first letter of
each run of letters is uppercased, the rest lowercased. -/
def pyTitle (s : String) : String :=
  ⟨titleChars false s.data⟩

/-- Helper for email_domain: the characters after the first '@', if
any '@' occurs. -/
def afterFirstAt : List Char → Option (List Char)
  | [] => none
  | c :: cs => if c = '@' then some cs else afterFirstAt cs

/-- The extraction df["email"].str.extract(r"@(.+)$").fillna(""): the
substring after the first '@' when it is nonempty, else "".  (The
regex dot does not cross a newline, but emails have been stripped, so
the difference is immaterial here.) -/
def email_domain (e : String) : String :=
  match afterFirstAt e.data with
  | none => ""
  | some rest => if rest.isEmpty then "" else ⟨rest⟩

/-- The normalisation block of Stage A: fillna on address fields and
status, .str.title() on names, full_name concatenation (with fillna("")
on each part and no trimming), and email strip + lower plus domain
extraction. -/
def normalizeRow (r : Record) : Norm :=
  { employee_id := r.employee_id
    first_name := r.first_name.map pyTitle
    last_name := r.last_name.map pyTitle
    full_name := (r.first_name.map pyTitle).getD "" ++ " " ++ (r.last_name.map pyTitle).getD ""
    email := pyLower (pyStrip (pyStr r.email))
    email_domain := email_domain (pyLower (pyStrip (pyStr r.email)))
    hire_date := r.hire_date
    birth_date := r.birth_date
    salary := r.salary
    job_title := r.job_title
    department := r.department
    manager_id := r.manager_id
    address := r.address.getD ""
    city := r.city.getD ""
    state := r.state.getD ""
    zip_code := r.zip_code.getD ""
    status := r.status.getD "Active" }

/-- The row filter df[df["hire_date"].isna() | (df["hire_date"] <= today)]. -/
def keepRow (run : Date) (n : Norm) : Bool :=
  match n.hire_date with
  | none => true
  | some d => Date.leb d run

/-- calc_age from the source: today.year - birth.year, decremented by 1
when (today.month, today.day) < (birth.month, birth.day). -/
def calc_age (run birth : Date) : Int :=
  let delta : Int := (run.year : Int) - (birth.year : Int)
  if pairLt (run.month, run.day) (birth.month, birth.day) then delta - 1 else delta

/-- Round-half-to-even to an integer, the rounding numpy applies in
Series.round. -/
def roundHalfEven (q : Rat) : Int :=
  let f : Int := q.floor
  let r : Rat := q - (f : Rat)
  if r < 1 / 2 then f
  else if 1 / 2 < r then f + 1
  else if f % 2 = 0 then f else f + 1

/-- Series.round(1): round to one decimal place (half to even). -/
def round1 (q : Rat) : Rat :=
  ((roundHalfEven (q * 10) : Int) : Rat) / 10

/-- The tenure computation: (today - hire_date) in days divided by
365.25 (pd.Timedelta(days=365.25)), then .round(1). -/
def tenure_years (run hire : Date) : Rat :=
  round1 (((run.toDays - hire.toDays : Int) : Rat) / (36525 / 100))

/-- salary_band from the source: missing is "Unknown", below 50000 is
"Junior", below 80000 is "Mid", otherwise "Senior". -/
def salary_band : Option Rat → String
  | none => "Unknown"
  | some sal =>
    if sal < 50000 then "Junior"
    else if sal < 80000 then "Mid"
    else "Senior"

/-- The derived-field block of Stage A: age, tenure_years and
salary_band, computed per surviving row. -/
def deriveRow (run : Date) (n : Norm) : Cleaned :=
  { toNorm := n
    age := n.birth_date.map (calc_age run)
    tenure_years := n.hire_date.map (tenure_years run)
    salary_band := salary_band n.salary }

/-- Stage A on the in-memory table: dedup, normalise, filter out future
hire dates, compute derived fields.  `run` is today, the UTC calendar
date of the run. -/
def stageA (run : Date) (rows : List Record) : List Cleaned :=
  (((dedupBy Record.employee_id rows).map normalizeRow).filter (keepRow run)).map
    (deriveRow run)

/-- The fixed output column list of Stage A, verbatim from the source. -/
def final_cols : List String :=
  ["employee_id", "first_name", "last_name", "full_name", "email", "email_domain",
   "hire_date", "job_title", "department", "salary", "salary_band", "manager_id",
   "address", "city", "state", "zip_code", "birth_date", "age", "tenure_years",
   "status", "created_at", "updated_at"]

/-- Modelled from the spec: the column order stated by the data-model
table of section 3 of the spec, used only to compare against
final_cols. -/
def spec3_cols : List String :=
  ["employee_id", "first_name", "last_name", "full_name", "email", "email_domain",
   "hire_date", "birth_date", "job_title", "department", "manager_id", "salary",
   "salary_band", "address", "city", "state", "zip_code", "age", "tenure_years",
   "status", "created_at", "updated_at"]

/-- One row of the Stage B sample: the fixed 8-column subset selected
by write_sample.py. -/
structure Sample where
  employee_id : Option String
  full_name : String
  email : String
  salary : Option Rat
  salary_band : String
  age : Option Int
  tenure_years : Option Rat
  department : Option String
deriving DecidableEq, Repr

/-- The column projection df[cols] of write_sample.py. -/
def sampleRow (s : Cleaned) : Sample :=
  { employee_id := s.employee_id
    full_name := s.full_name
    email := s.email
    salary := s.salary
    salary_band := s.salary_band
    age := s.age
    tenure_years := s.tenure_years
    department := s.department }

/-- Stage B: select the 8-column subset and take the first 10 rows
(df[cols].head(10)); reading Stage A's file back is out of scope. -/
def stageB (rows : List Cleaned) : List Sample :=
  (rows.map sampleRow).take 10

/-- A record with every optional field absent, for concrete instances. -/
def blankRecord : Record :=
  { employee_id := none, first_name := none, last_name := none, email := none,
    hire_date := none, birth_date := none, salary := none, job_title := none,
    department := none, manager_id := none, address := none, city := none,
    state := none, zip_code := none, status := none }

/-- A concrete input row used by the witnesses: hired 2020-01-01, born
2000-03-15, salary 45000. -/
def r1 : Record :=
  { blankRecord with
    employee_id := some "E1", first_name := some "jane", last_name := some "doe",
    hire_date := some ⟨2020, 1, 1⟩, birth_date := some ⟨2000, 3, 15⟩,
    salary := some 45000, department := some "Eng" }

/-- A concrete run date used by the witnesses. -/
def runD : Date := ⟨2024, 3, 14⟩

/-- A concrete record with a missing first name and email, for the
full_name and email claims. -/
def c5rec : Record :=
  { blankRecord with employee_id := some "E9", last_name := some "doe" }

theorem mem_dedupGo {α κ : Type} (key : α → κ) [DecidableEq κ]
    {seen : List κ} {l : List α} {x : α} (h : x ∈ dedupGo key seen l) :
    x ∈ l ∧ key x ∉ seen := by
  induction l generalizing seen with
  | nil => simp [dedupGo] at h
  | cons a l ih =>
    simp only [dedupGo] at h
    by_cases ha : key a ∈ seen
    · rw [if_pos ha] at h
      rcases ih h with ⟨h1, h2⟩
      exact ⟨List.mem_cons_of_mem _ h1, h2⟩
    · rw [if_neg ha] at h
      rcases List.mem_cons.mp h with rfl | h
      · exact ⟨List.mem_cons_self _ _, ha⟩
      · rcases ih h with ⟨h1, h2⟩
        rw [List.mem_cons, not_or] at h2
        exact ⟨List.mem_cons_of_mem _ h1, h2.2⟩

theorem dedupGo_sublist {α κ : Type} (key : α → κ) [DecidableEq κ]
    (seen : List κ) (l : List α) : (dedupGo key seen l).Sublist l := by
  induction l generalizing seen with
  | nil => simp [dedupGo]
  | cons a l ih =>
    simp only [dedupGo]
    by_cases ha : key a ∈ seen
    · rw [if_pos ha]; exact (ih seen).cons a
    · rw [if_neg ha]; exact (ih (key a :: seen)).cons₂ a

theorem dedupGo_map_key_nodup {α κ : Type} (key : α → κ) [DecidableEq κ]
    (seen : List κ) (l : List α) : ((dedupGo key seen l).map key).Nodup := by
  induction l generalizing seen with
  | nil => simp [dedupGo]
  | cons a l ih =>
    simp only [dedupGo]
    by_cases ha : key a ∈ seen
    · rw [if_pos ha]; exact ih seen
    · rw [if_neg ha]
      simp only [List.map_cons, List.nodup_cons]
      refine ⟨?_, ih (key a :: seen)⟩
      intro hmem
      rcases List.mem_map.mp hmem with ⟨y, hy, hky⟩
      have h2 := (mem_dedupGo key hy).2
      rw [List.mem_cons, not_or] at h2
      exact h2.1 hky

theorem mem_dedupGo_iff {α κ : Type} (key : α → κ) [DecidableEq κ]
    (seen : List κ) (l : List α) (x : α) :
    x ∈ dedupGo key seen l ↔
      key x ∉ seen ∧ l.find? (fun y => decide (key y = key x)) = some x := by
  induction l generalizing seen with
  | nil => simp [dedupGo]
  | cons a l ih =>
    simp only [dedupGo]
    by_cases hax : key a = key x
    · have hfind : (a :: l).find? (fun y => decide (key y = key x)) = some a :=
        List.find?_cons_of_pos _ (by simp [hax])
      rw [hfind]
      by_cases ha : key a ∈ seen
      · rw [if_pos ha]
        constructor
        · intro h
          exact absurd (hax ▸ ha) (mem_dedupGo key h).2
        · rintro ⟨hns, _⟩
          exact absurd (hax ▸ ha) hns
      · rw [if_neg ha]
        constructor
        · intro h
          rcases List.mem_cons.mp h with rfl | h
          · exact ⟨hax ▸ ha, rfl⟩
          · have h2 := (mem_dedupGo key h).2
            rw [List.mem_cons, not_or] at h2
            exact absurd hax (Ne.symm h2.1)
        · rintro ⟨_, ha2⟩
          injection ha2 with h2
          exact List.mem_cons.mpr (Or.inl h2.symm)
    · have hfind : (a :: l).find? (fun y => decide (key y = key x)) =
          l.find? (fun y => decide (key y = key x)) :=
        List.find?_cons_of_neg _ (by simp [hax])
      rw [hfind]
      by_cases ha : key a ∈ seen
      · rw [if_pos ha]; exact ih seen
      · rw [if_neg ha]
        constructor
        · intro h
          rcases List.mem_cons.mp h with rfl | h
          · exact absurd rfl hax
          · have h2 := (ih (key a :: seen)).mp h
            rw [List.mem_cons, not_or] at h2
            exact ⟨h2.1.2, h2.2⟩
        · rintro ⟨hns, hf⟩
          refine List.mem_cons_of_mem a ((ih (key a :: seen)).mpr ⟨?_, hf⟩)
          rw [List.mem_cons, not_or]
          exact ⟨fun he => hax he.symm, hns⟩

theorem dedupGo_eq_self {α κ : Type} (key : α → κ) [DecidableEq κ]
    {seen : List κ} {l : List α} (hnd : (l.map key).Nodup)
    (hs : ∀ x ∈ l, key x ∉ seen) : dedupGo key seen l = l := by
  induction l generalizing seen with
  | nil => rfl
  | cons a l ih =>
    simp only [dedupGo]
    rw [if_neg (hs a (List.mem_cons_self a l))]
    simp only [List.map_cons, List.nodup_cons] at hnd
    congr 1
    refine ih hnd.2 ?_
    intro x hx
    rw [List.mem_cons, not_or]
    refine ⟨?_, hs x (List.mem_cons_of_mem _ hx)⟩
    intro he
    exact hnd.1 (he ▸ List.mem_map_of_mem key hx)

theorem dedupBy_idem {α κ : Type} (key : α → κ) [DecidableEq κ] (l : List α) :
    dedupBy key (dedupBy key l) = dedupBy key l :=
  dedupGo_eq_self key (dedupGo_map_key_nodup key [] l) (by simp)

theorem keepRow_iff (run : Date) (n : Norm) :
    keepRow run n = true ↔
      (n.hire_date = none ∨ ∃ d, n.hire_date = some d ∧ Date.leb d run = true) := by
  cases hd : n.hire_date with
  | none => simp [keepRow, hd]
  | some d => simp [keepRow, hd]

theorem stageA_provenance {run : Date} {rows : List Record} {s : Cleaned}
    (h : s ∈ stageA run rows) :
    ∃ r, r ∈ rows ∧ s = deriveRow run (normalizeRow r) := by
  simp only [stageA, List.mem_map] at h
  rcases h with ⟨n, hn, rfl⟩
  have hn' := List.mem_of_mem_filter hn
  simp only [List.mem_map] at hn'
  rcases hn' with ⟨r, hr, rfl⟩
  exact ⟨r, (dedupGo_sublist _ _ _).subset hr, rfl⟩

/-- C2: the deduplicator keeps, for each employee_id, exactly the first
occurrence in input order (regardless of field completeness); no key
occurs twice in the output, the relative order of survivors is that of
the input, and the output key set is a subset of the input key set. -/
theorem dedup_first_seen (l : List Record) :
    (dedupBy Record.employee_id l).Sublist l
    ∧ ((dedupBy Record.employee_id l).map Record.employee_id).Nodup
    ∧ (∀ x, x ∈ dedupBy Record.employee_id l ↔
        l.find? (fun y => decide (y.employee_id = x.employee_id)) = some x)
    ∧ (∀ k, k ∈ (dedupBy Record.employee_id l).map Record.employee_id →
        k ∈ l.map Record.employee_id) := by
  refine ⟨dedupGo_sublist _ _ _, dedupGo_map_key_nodup _ _ _, ?_, ?_⟩
  · intro x
    rw [dedupBy, mem_dedupGo_iff]
    simp only [List.not_mem_nil, not_false_iff, true_and]
  · intro k hk
    exact ((dedupGo_sublist Record.employee_id [] l).map Record.employee_id).subset hk

theorem dedup_first_seen_witness :
    (some "E1" : Option String) ∈ ([r1] : List Record).map Record.employee_id :=
  (dedup_first_seen [r1]).2.2.2 (some "E1") (by decide)

/-- C9: the deduplicator is idempotent: applying the first-occurrence
dedup on employee_id twice gives the same list as applying it once. -/
theorem dedup_idempotent (l : List Record) :
    dedupBy Record.employee_id (dedupBy Record.employee_id l) =
      dedupBy Record.employee_id l :=
  dedupBy_idem Record.employee_id l

/-- C1: a deduplicated and normalised record survives Stage A exactly
when its hire_date is missing or at most the run date; consequently no
Stage A output record has a hire_date strictly after the run date, and
a record with a future hire_date is dropped whole, not nulled. -/
theorem future_hire_filter (run : Date) (rows : List Record) :
    (∀ s ∈ stageA run rows,
        s.hire_date = none ∨ ∃ d, s.hire_date = some d ∧ Date.leb d run = true)
    ∧ (∀ n ∈ (dedupBy Record.employee_id rows).map normalizeRow,
        (deriveRow run n ∈ stageA run rows ↔
          (n.hire_date = none ∨ ∃ d, n.hire_date = some d ∧ Date.leb d run = true))) := by
  constructor
  · intro s hs
    simp only [stageA, List.mem_map] at hs
    rcases hs with ⟨n, hn, rfl⟩
    exact (keepRow_iff run n).mp (List.mem_filter.mp hn).2
  · intro n hn
    constructor
    · intro h
      simp only [stageA, List.mem_map] at h
      rcases h with ⟨n', hn', heq⟩
      have hnn : n' = n := congrArg Cleaned.toNorm heq
      subst hnn
      exact (keepRow_iff run n').mp (List.mem_filter.mp hn').2
    · intro h
      exact List.mem_map_of_mem (deriveRow run)
        (List.mem_filter.mpr ⟨hn, (keepRow_iff run n).mpr h⟩)

unseal Rat.mul Rat.add Rat.sub Rat.inv in
theorem future_hire_filter_witness :
    (deriveRow runD (normalizeRow r1)).hire_date = none ∨
      ∃ d, (deriveRow runD (normalizeRow r1)).hire_date = some d ∧
        Date.leb d runD = true :=
  (future_hire_filter runD [r1]).1 (deriveRow runD (normalizeRow r1)) (by decide)

/-- C3: every Stage A output record carries salary_band applied to its
own salary, and salary_band is the total function sending a missing
salary to "Unknown", a salary below 50000 to "Junior", one in
[50000, 80000) to "Mid" and one of at least 80000 to "Senior"; in
particular 49999.99 is "Junior", 50000 is "Mid", 79999.99 is "Mid" and
80000 is "Senior". -/
theorem salary_band_total (run : Date) (rows : List Record) :
    (∀ s ∈ stageA run rows, s.salary_band = salary_band s.salary)
    ∧ salary_band none = "Unknown"
    ∧ (∀ q : Rat, q < 50000 → salary_band (some q) = "Junior")
    ∧ (∀ q : Rat, 50000 ≤ q → q < 80000 → salary_band (some q) = "Mid")
    ∧ (∀ q : Rat, 80000 ≤ q → salary_band (some q) = "Senior")
    ∧ salary_band (some (mkRat 4999999 100)) = "Junior"
    ∧ salary_band (some 50000) = "Mid"
    ∧ salary_band (some (mkRat 7999999 100)) = "Mid"
    ∧ salary_band (some 80000) = "Senior" := by
  refine ⟨?_, rfl, ?_, ?_, ?_, by decide, by decide, by decide, by decide⟩
  · intro s hs
    rcases stageA_provenance hs with ⟨r, _, rfl⟩
    rfl
  · intro q h
    simp only [salary_band, if_pos h]
  · intro q h50 h80
    simp only [salary_band, if_neg (not_lt.mpr h50), if_pos h80]
  · intro q h80
    have h50 : ¬ q < 50000 := not_lt.mpr (le_trans (by norm_num) h80)
    simp only [salary_band, if_neg h50, if_neg (not_lt.mpr h80)]

theorem salary_band_total_witness : salary_band (some 45000) = "Junior" :=
  (salary_band_total ⟨2024, 1, 1⟩ []).2.2.1 45000 (by norm_num)

/-- C4 counterexample: the output column order of the source is not the
order stated by the section 3 table; they first differ at index 7,
where the source has "job_title" and the table has "birth_date". -/
theorem final_cols_not_spec_order :
    final_cols ≠ spec3_cols ∧ final_cols.get? 7 = some "job_title"
    ∧ spec3_cols.get? 7 = some "birth_date" := by
  refine ⟨by decide, by decide, by decide⟩

/-- C4 amended: Stage A's output has exactly the 22 columns of the
section 3 table, identically on every run, but in the source's
final_cols order (job_title and department before salary, manager_id
after salary_band, birth_date after zip_code), not the stated section 3
order. -/
theorem final_cols_perm_spec :
    final_cols.Perm spec3_cols ∧ final_cols.length = 22 ∧ final_cols.Nodup := by
  refine ⟨by decide, by decide, by decide⟩

/-- C5 counterexample: with a missing first_name and last_name "doe",
the code produces full_name " Doe" with a leading space, not the
trimmed "Doe" the claim states. -/
theorem full_name_not_trimmed :
    c5rec.first_name = none ∧ c5rec.last_name = some "doe"
    ∧ (normalizeRow c5rec).full_name = " Doe"
    ∧ (" Doe" : String) ≠ "Doe" := by
  refine ⟨rfl, rfl, by decide, by decide⟩

/-- C5 amended: full_name is the untrimmed concatenation of the
title-cased first_name and last_name joined by a single space, with a
missing name treated as the empty string; when exactly one name is
missing, full_name is the other title-cased name with a leading
(respectively trailing) space kept. -/
theorem full_name_untrimmed (run : Date) (rows : List Record) :
    (∀ r : Record, (normalizeRow r).full_name =
        (r.first_name.map pyTitle).getD "" ++ " " ++ (r.last_name.map pyTitle).getD "")
    ∧ (∀ r : Record, r.first_name = none → ∀ ln, r.last_name = some ln →
        (normalizeRow r).full_name = " " ++ pyTitle ln)
    ∧ (∀ r : Record, r.last_name = none → ∀ fn, r.first_name = some fn →
        (normalizeRow r).full_name = pyTitle fn ++ " ")
    ∧ (∀ s ∈ stageA run rows, ∃ r, r ∈ rows ∧
        s.full_name = (normalizeRow r).full_name) := by
  refine ⟨fun r => rfl, ?_, ?_, ?_⟩
  · intro r h1 ln h2
    show (r.first_name.map pyTitle).getD "" ++ " " ++ (r.last_name.map pyTitle).getD "" = _
    rw [h1, h2]
    rfl
  · intro r h1 fn h2
    show (r.first_name.map pyTitle).getD "" ++ " " ++ (r.last_name.map pyTitle).getD "" = _
    rw [h1, h2]
    exact String.append_empty _
  · intro s hs
    rcases stageA_provenance hs with ⟨r, hr, rfl⟩
    exact ⟨r, hr, rfl⟩

theorem full_name_untrimmed_witness :
    (normalizeRow c5rec).full_name = " " ++ pyTitle "doe" :=
  (full_name_untrimmed ⟨2024, 1, 1⟩ []).2.1 c5rec rfl "doe" rfl

/-- C6: in Stage A's output, age is missing exactly when birth_date is
missing, and otherwise equals run year minus birth year, decremented by
one when (run month, run day) is lexicographically before (birth month,
birth day); for birth_date 2000-03-15 the age is 23 on 2024-03-14 and
24 on 2024-03-15. -/
theorem age_correct (run : Date) (rows : List Record) :
    (∀ s ∈ stageA run rows,
        (s.age = none ↔ s.birth_date = none)
        ∧ (∀ b, s.birth_date = some b →
            s.age = some (if pairLt (run.month, run.day) (b.month, b.day)
              then (run.year : Int) - (b.year : Int) - 1
              else (run.year : Int) - (b.year : Int))))
    ∧ calc_age ⟨2024, 3, 14⟩ ⟨2000, 3, 15⟩ = 23
    ∧ calc_age ⟨2024, 3, 15⟩ ⟨2000, 3, 15⟩ = 24 := by
  refine ⟨?_, by decide, by decide⟩
  intro s hs
  rcases stageA_provenance hs with ⟨r, _, rfl⟩
  constructor
  · show r.birth_date.map (calc_age run) = none ↔ r.birth_date = none
    cases r.birth_date <;> simp
  · intro b hb
    show r.birth_date.map (calc_age run) = _
    have hb' : r.birth_date = some b := hb
    rw [hb']
    rfl

unseal Rat.mul Rat.add Rat.sub Rat.inv in
theorem age_correct_witness :
    (deriveRow runD (normalizeRow r1)).age = some 23 := by
  have h := ((age_correct runD [r1]).1 (deriveRow runD (normalizeRow r1))
      (by decide)).2 ⟨2000, 3, 15⟩ (by decide)
  rw [h]
  decide

unseal Rat.mul Rat.add Rat.sub Rat.inv in
/-- C7: in Stage A's output, tenure_years is missing exactly when
hire_date is missing, and otherwise equals the day count from hire_date
to the run date divided by 365.25 and rounded (half to even) to one
decimal place; from 2020-01-01 to 2024-01-01 the day count is 1461 and
the tenure is exactly 4.0. -/
theorem tenure_correct (run : Date) (rows : List Record) :
    (∀ s ∈ stageA run rows,
        (s.tenure_years = none ↔ s.hire_date = none)
        ∧ (∀ h, s.hire_date = some h →
            s.tenure_years =
              some (round1 (((run.toDays - h.toDays : Int) : Rat) / (36525 / 100)))))
    ∧ Date.toDays ⟨2024, 1, 1⟩ - Date.toDays ⟨2020, 1, 1⟩ = 1461
    ∧ tenure_years ⟨2024, 1, 1⟩ ⟨2020, 1, 1⟩ = 4 := by
  refine ⟨?_, by decide, by decide⟩
  intro s hs
  rcases stageA_provenance hs with ⟨r, _, rfl⟩
  constructor
  · show r.hire_date.map (tenure_years run) = none ↔ r.hire_date = none
    cases r.hire_date <;> simp
  · intro h hh
    show r.hire_date.map (tenure_years run) = _
    have hh' : r.hire_date = some h := hh
    rw [hh']
    rfl

unseal Rat.mul Rat.add Rat.sub Rat.inv in
theorem tenure_correct_witness :
    (deriveRow runD (normalizeRow r1)).tenure_years =
      some (round1 (((runD.toDays - Date.toDays ⟨2020, 1, 1⟩ : Int) : Rat) /
        (36525 / 100))) :=
  ((tenure_correct runD [r1]).1 (deriveRow runD (normalizeRow r1))
      (by decide)).2 ⟨2020, 1, 1⟩ (by decide)

/-- C8: Stage B is the 8-column projection of Stage A's output applied
to the first ten records in order, with no re-sorting and no other
filtering: its output is exactly the projected 10-record (or shorter)
initial segment, and a 15-record input yields exactly the first 10. -/
theorem sample_head :
    (∀ rows : List Cleaned, stageB rows = (rows.take 10).map sampleRow)
    ∧ (∀ rows : List Cleaned, (stageB rows).length = min 10 rows.length)
    ∧ (∀ s : Cleaned, stageB (List.replicate 15 s) =
        List.replicate 10 (sampleRow s)) := by
  refine ⟨?_, ?_, ?_⟩
  · intro rows
    simp [stageB, List.map_take]
  · intro rows
    simp [stageB]
  · intro s
    simp [stageB, List.map_replicate, List.take_replicate]

/-- C10: a record whose raw email is missing gets the literal string
"nan" as its normalised email (never a missing value, never the empty
string) and the empty string as its email_domain, and every Stage A
output record carries exactly the normalised email fields of the input
record it came from. -/
theorem missing_email_nan (run : Date) (rows : List Record) :
    (∀ r : Record, r.email = none →
        (normalizeRow r).email = "nan" ∧ (normalizeRow r).email ≠ ""
        ∧ (normalizeRow r).email_domain = "")
    ∧ (∀ s ∈ stageA run rows, ∃ r, r ∈ rows ∧
        s.email = (normalizeRow r).email ∧
        s.email_domain = (normalizeRow r).email_domain) := by
  constructor
  · intro r h
    have he : (normalizeRow r).email = "nan" := by
      show pyLower (pyStrip (pyStr r.email)) = "nan"
      rw [h]
      decide
    refine ⟨he, by rw [he]; decide, ?_⟩
    show email_domain (pyLower (pyStrip (pyStr r.email))) = ""
    rw [h]
    decide
  · intro s hs
    rcases stageA_provenance hs with ⟨r, hr, rfl⟩
    exact ⟨r, hr, rfl, rfl⟩

theorem missing_email_nan_witness :
    (normalizeRow c5rec).email = "nan" :=
  ((missing_email_nan ⟨2024, 1, 1⟩ []).1 c5rec rfl).1

end EmployeeCurator
